import Mathlib

/-!
Shallow embedding of the host-side core of `wgpu-mandelbrot` (`src/main.rs`):
the dispatch sizer, the pixel store, the compaction pass performed on the
read-back staging buffer, the histogram colouring engine, and the
zoom/origin/resize event handlers.

Machine integers (`u32`, `usize`) are modelled as `Nat`; the `f32` values
held in `Complex`, `ColourRange.value` and the cumulative-rank table are
modelled as exact rationals (`ℚ`), with the float literal `0.1` read as
`1/10`.  A Rust `panic!` (including an out-of-bounds slice index and a
failing `try_into().unwrap()`) is modelled by `Option`/`Except` `none`/
`error` results.  `FnvHashMap` values are modelled as total functions
(`Nat → Nat` with `0` meaning "absent" — every key this program inserts
immediately gets a positive count — and `Nat → Option ℚ`); `rayon`'s
`par_iter_mut` recolouring loop is order-independent per-index work and is
modelled as a sequential pass.
-/

namespace WgpuMandelbrot

/-- `struct Complex { real: f32, imaginary: f32 }` from `src/main.rs`. -/
structure Complex where
  real : ℚ
  imaginary : ℚ
deriving DecidableEq

/-- `Complex::ZERO`. -/
def Complex.ZERO : Complex := { real := 0, imaginary := 0 }

/-- `struct ScreenSize { width: u32, height: u32 }`. -/
structure ScreenSize where
  width : Nat
  height : Nat
deriving DecidableEq

/-- `struct Pixel { x, y, escaped: u32, current_value: Complex, iteration_count: u32 }`. -/
structure Pixel where
  x : Nat
  y : Nat
  escaped : Nat
  current_value : Complex
  iteration_count : Nat
deriving DecidableEq

/-- `struct ColourRange { escaped: u32, value: f32 }`. -/
structure ColourRange where
  escaped : Nat
  value : ℚ
deriving DecidableEq

/-- `impl Default for ColourRange`: `{ escaped: 0, value: 0.0 }`. -/
def ColourRange.defaultVal : ColourRange := { escaped := 0, value := 0 }

/-- `struct Vec2 { x: f32, y: f32 }`. -/
structure Vec2 where
  x : ℚ
  y : ℚ
deriving DecidableEq

/-- `create_pixels(size)`: row-major grid of fresh pixels
(`(0..height).flat_map(|y| (0..width).map(|x| Pixel { .. }))`). -/
def create_pixels (size : ScreenSize) : List Pixel :=
  (List.range size.height).flatMap fun y =>
    (List.range size.width).map fun x =>
      { x := x, y := y, escaped := 0, current_value := Complex.ZERO,
        iteration_count := 0 }

/-- `MANDELBROT_WORKGROUP_SIZE_Y`: workgroup size for `compute.wgsl#mandelbrot`. -/
def MANDELBROT_WORKGROUP_SIZE_Y : Nat := 64

/-- `MANDELBROT_DISPATCH_SIZE_Y`: the fixed `y` dimension of the dispatch. -/
def MANDELBROT_DISPATCH_SIZE_Y : Nat := 1024

/-- `mandelbrot_dispatch_size(total_work)`:
`(total_work / (1024 * 64) + 1).try_into().unwrap()` for `x`, then
`(x, 1024, 1)`.  The `try_into::<u32>()` panics (modelled by `none`) when
the quotient plus one does not fit in 32 bits. -/
def mandelbrot_dispatch_size (total_work : Nat) : Option (Nat × Nat × Nat) :=
  let x := total_work / (MANDELBROT_DISPATCH_SIZE_Y * MANDELBROT_WORKGROUP_SIZE_Y) + 1
  if x < 2 ^ 32 then some (x, MANDELBROT_DISPATCH_SIZE_Y, 1) else none

/-- `struct HistogramColouring`: running histogram over iteration counts of
escaped pixels.  `histogram` and `histogram_ranges` model the two
`FnvHashMap`s. -/
structure HistogramColouring where
  total_samples : Nat
  bucket_labels : List Nat
  histogram : Nat → Nat
  histogram_ranges : Nat → Option ℚ

/-- `HistogramColouring::new()`. -/
def HistogramColouring.new : HistogramColouring :=
  { total_samples := 0
    bucket_labels := []
    histogram := fun _ => 0
    histogram_ranges := fun _ => none }

/-- `HistogramColouring::reset()`: clears every field. -/
def HistogramColouring.reset (_hc : HistogramColouring) : HistogramColouring :=
  { total_samples := 0
    bucket_labels := []
    histogram := fun _ => 0
    histogram_ranges := fun _ => none }

/-- The first loop of `update_colours`: for each newly escaped pixel, mark its
slot in `colour_ranges` as escaped (a Rust index-out-of-bounds panic is
`none`), bump its iteration-count bucket (pushing the label on first
occurrence, as `entry(..).or_insert_with` does), and bump `total_samples`. -/
def insertEscaped (screen_size : ScreenSize) :
    HistogramColouring → List Pixel → List ColourRange →
    Option (HistogramColouring × List ColourRange)
  | hc, [], colour_ranges => some (hc, colour_ranges)
  | hc, pixel :: rest, colour_ranges =>
    match colour_ranges[pixel.y * screen_size.width + pixel.x]? with
    | none => none
    | some c =>
      insertEscaped screen_size
        { total_samples := hc.total_samples + 1
          bucket_labels :=
            if hc.histogram pixel.iteration_count = 0 then
              hc.bucket_labels ++ [pixel.iteration_count]
            else hc.bucket_labels
          histogram := fun k =>
            if k = pixel.iteration_count then hc.histogram k + 1
            else hc.histogram k
          histogram_ranges := hc.histogram_ranges }
        rest
        (colour_ranges.set (pixel.y * screen_size.width + pixel.x)
          { c with escaped := 1 })

/-- The cumulative-rank pass of `update_colours`: a single pass over the
sorted bucket labels, inserting `acc / total_samples` for each label and then
adding that bucket's count to the accumulator. -/
def computeRanges (histogram : Nat → Nat) (total_samples : ℚ) :
    List Nat → Nat → (Nat → Option ℚ) → (Nat → Option ℚ)
  | [], _, r => r
  | label :: rest, acc, r =>
    computeRanges histogram total_samples rest (acc + histogram label)
      (fun k => if k = label then some ((acc : ℚ) / total_samples) else r k)

/-- The final `par_iter_mut` pass of `update_colours`: for every index, look
up the pixel in `all_pixels` (out-of-bounds panics: `none`); if it has
escaped, overwrite the colour value with the cumulative rank of its bucket
(a missing bucket panics: `none`). -/
def recolourPixels (ranges : Nat → Option ℚ) (all_pixels : List Pixel) :
    Nat → List ColourRange → Option (List ColourRange)
  | _, [] => some []
  | index, c :: rest =>
    match all_pixels[index]? with
    | none => none
    | some pixel =>
      match (if pixel.escaped = 1 then
               match ranges pixel.iteration_count with
               | none => none
               | some v => some { c with value := v }
             else some c) with
      | none => none
      | some c' =>
        match recolourPixels ranges all_pixels (index + 1) rest with
        | none => none
        | some rest' => some (c' :: rest')

/-- The `self.bucket_labels.sort()` call of `update_colours`, sorting the
bucket labels ascending (Rust's stable sort on `u32`; on a totally ordered
element type with no distinct equal elements every sorting algorithm yields
this same list). -/
def sortedHistogram (hc : HistogramColouring) : HistogramColouring :=
  { hc with bucket_labels := List.insertionSort (· ≤ ·) hc.bucket_labels }

/-- The state after the cumulative-rank pass of `update_colours` rebuilt
`histogram_ranges` from the (sorted) bucket labels. -/
def withRanges (hc : HistogramColouring) : HistogramColouring :=
  { hc with histogram_ranges :=
      (computeRanges hc.histogram (hc.total_samples : ℚ) hc.bucket_labels 0
        hc.histogram_ranges) }

/-- `HistogramColouring::update_colours`: no-op when `newly_escaped_pixels`
is empty; otherwise clear `histogram_ranges`, run the insertion loop, sort
`bucket_labels` ascending, rebuild the cumulative-rank table, and recolour
every escaped pixel. -/
def update_colours (hc : HistogramColouring) (screen_size : ScreenSize)
    (all_pixels : List Pixel) (newly_escaped_pixels : List Pixel)
    (colour_ranges : List ColourRange) :
    Option (HistogramColouring × List ColourRange) :=
  if newly_escaped_pixels.isEmpty then some (hc, colour_ranges)
  else
    match insertEscaped screen_size { hc with histogram_ranges := fun _ => none }
        newly_escaped_pixels colour_ranges with
    | none => none
    | some (hc1, cr1) =>
      match recolourPixels (withRanges (sortedHistogram hc1)).histogram_ranges
          all_pixels 0 cr1 with
      | none => none
      | some cr2 => some (withRanges (sortedHistogram hc1), cr2)

/-- One step of the compaction loop over the read-back staging records
(`Event::RedrawRequested`): an escaped pixel is written into the all-pixels
snapshot at `y * width + x` (out-of-bounds write panics: `none`) and pushed
onto the newly-escaped list; anything else is pushed onto the next frame's
unescaped working set. -/
def compactStep (width : Nat) :
    List Pixel → List Pixel → List Pixel → List Pixel →
    Option (List Pixel × List Pixel × List Pixel)
  | [], all_pixels, newly_escaped, unescaped =>
    some (all_pixels, newly_escaped, unescaped)
  | pixel :: rest, all_pixels, newly_escaped, unescaped =>
    if pixel.escaped = 1 then
      match all_pixels[pixel.y * width + pixel.x]? with
      | none => none
      | some _ =>
        compactStep width rest (all_pixels.set (pixel.y * width + pixel.x) pixel)
          (newly_escaped ++ [pixel]) unescaped
    else
      compactStep width rest all_pixels newly_escaped (unescaped ++ [pixel])

/-- The compaction pass: clamp the staging-buffer view to the first `n`
records (`.iter().take(unescaped_pixels_len)`), then partition them starting
from freshly cleared newly-escaped and unescaped lists. -/
def compaction (width : Nat) (staging : List Pixel) (n : Nat)
    (all_pixels : List Pixel) :
    Option (List Pixel × List Pixel × List Pixel) :=
  compactStep width (staging.take n) all_pixels [] []

/-- `winit::event::MouseScrollDelta`, with its two payloads as rationals. -/
inductive MouseScrollDelta where
  | lineDelta (x : ℚ) (y : ℚ)
  | pixelDelta (x : ℚ) (y : ℚ)

/-- The `WindowEvent::MouseWheel` arm: `zoom += zoom * 0.1 * delta` for a
`LineDelta`, and `panic!("expected LineDelta, got PixelDelta")` for a
`PixelDelta` (the panic is modelled as an `error` carrying the message). -/
def handle_mouse_wheel (zoom : ℚ) (delta : MouseScrollDelta) :
    Except String ℚ :=
  match delta with
  | .lineDelta _ d => .ok (zoom + zoom * (1 / 10) * d)
  | .pixelDelta _ _ => .error "expected LineDelta, got PixelDelta"

/-- The host-side mutable frame state relevant to the reset and resize
paths: the loop-local variables of `main` (§ device buffers mirror the
host copies written to them in the same statements). -/
structure AppState where
  screen_size : ScreenSize
  zoom : ℚ
  origin : Vec2
  colour_ranges : List ColourRange
  histogram_colouring : HistogramColouring
  all_pixels : List Pixel
  unescaped_pixels : List Pixel

/-- The `if reset_buffers` block of `Event::RedrawRequested` (taken when
`zoom_changed || origin_changed`): refill `colour_ranges` with defaults,
reset the histogram, and reinitialise the pixel buffers, the snapshot and
the working set from `create_pixels`. -/
def apply_view_reset (st : AppState) : AppState :=
  { st with
    colour_ranges :=
      List.replicate (st.screen_size.width * st.screen_size.height)
        ColourRange.defaultVal
    histogram_colouring := st.histogram_colouring.reset
    all_pixels := create_pixels st.screen_size
    unescaped_pixels := create_pixels st.screen_size }

/-- The `WindowEvent::Resized(new_size)` arm: record the new size, refill
`colour_ranges`, reset the histogram, and recreate the pixel store; the
`zoom` and `origin` variables (and the device buffers holding them, which
are only rebound, never rewritten, in this arm) are not touched. -/
def handle_resized (st : AppState) (new_size : ScreenSize) : AppState :=
  { st with
    screen_size := new_size
    colour_ranges :=
      List.replicate (new_size.width * new_size.height) ColourRange.defaultVal
    histogram_colouring := st.histogram_colouring.reset
    all_pixels := create_pixels new_size
    unescaped_pixels := create_pixels new_size }

/-! ### Generic lemmas about the row-major grid -/

theorem flatMap_range_length {α : Type} (w h : Nat) (f : Nat → Nat → α) :
    ((List.range h).flatMap fun y => (List.range w).map (f y)).length = h * w := by
  induction h with
  | zero => simp
  | succ n ih =>
    rw [List.range_succ, List.flatMap_append, List.length_append, ih]
    simp [Nat.succ_mul]

theorem flatMap_range_getElem {α : Type} (w h x y : Nat) (f : Nat → Nat → α)
    (hx : x < w) (hy : y < h) :
    ((List.range h).flatMap fun j => (List.range w).map (f j))[y * w + x]? =
      some (f y x) := by
  induction h with
  | zero => omega
  | succ n ih =>
    rw [List.range_succ, List.flatMap_append, List.getElem?_append,
      flatMap_range_length]
    rcases Nat.lt_or_ge y n with hlt | hge
    · have hidx : y * w + x < n * w := by
        have h1 : (y + 1) * w ≤ n * w := Nat.mul_le_mul_right w hlt
        have h2 : (y + 1) * w = y * w + w := Nat.succ_mul y w
        omega
      rw [if_pos hidx]
      exact ih hlt
    · have hyn : y = n := by omega
      subst hyn
      have hidx : ¬ (y * w + x < y * w) := by omega
      rw [if_neg hidx]
      simp [List.getElem?_map, List.getElem?_range hx, Nat.add_sub_cancel_left]

theorem create_pixels_length (size : ScreenSize) :
    (create_pixels size).length = size.width * size.height :=
  (flatMap_range_length size.width size.height _).trans
    (Nat.mul_comm size.height size.width)

theorem create_pixels_getElem (size : ScreenSize) (x y : Nat)
    (hx : x < size.width) (hy : y < size.height) :
    (create_pixels size)[y * size.width + x]? =
      some { x := x, y := y, escaped := 0, current_value := Complex.ZERO,
             iteration_count := 0 } := by
  rw [create_pixels]
  exact flatMap_range_getElem size.width size.height x y
    (fun j i => ({ x := i, y := j, escaped := 0, current_value := Complex.ZERO,
                   iteration_count := 0 } : Pixel)) hx hy

theorem create_pixels_mem (size : ScreenSize) :
    ∀ p ∈ create_pixels size,
      p.escaped = 0 ∧ p.iteration_count = 0 ∧ p.current_value = Complex.ZERO := by
  intro p hp
  rw [create_pixels, List.mem_flatMap] at hp
  obtain ⟨y, _, hp⟩ := hp
  rw [List.mem_map] at hp
  obtain ⟨x, _, rfl⟩ := hp
  exact ⟨rfl, rfl, rfl⟩

/-! ### C1: dispatch sizer -/

/-- C1, counterexample: the claim quantifies over every `total_work ≥ 0`, but
at `total_work = 65535 * 65536 = 4294901760` the code returns
`x = 65536`, which exceeds the device dispatch-count ceiling `65535`. -/
theorem mandelbrot_dispatch_size_ceiling_counterexample :
    mandelbrot_dispatch_size (65535 * 65536) = some (65536, 1024, 1) ∧
      ¬ (65536 ≤ 65535) := by
  exact ⟨by rfl, by decide⟩

/-- C1, amended: for every `total_work < 65535 * 65536`,
`mandelbrot_dispatch_size total_work` succeeds and returns `(x, y, z)` with
`z = 1`, `x * y * G ≥ total_work` (with `G = 64` the per-group invocation
count and `y = 1024`), and `x, y ≤ 65535`. -/
theorem mandelbrot_dispatch_size_spec (total_work : Nat)
    (h : total_work < 65535 * 65536) :
    (mandelbrot_dispatch_size total_work).isSome = true ∧
    ∀ out ∈ mandelbrot_dispatch_size total_work,
      out.2.2 = 1 ∧
      total_work ≤ out.1 * out.2.1 * MANDELBROT_WORKGROUP_SIZE_Y ∧
      out.1 ≤ 65535 ∧ out.2.1 = 1024 ∧ out.2.1 ≤ 65535 := by
  have hx : total_work / 65536 + 1 < 2 ^ 32 := by omega
  have hresult : mandelbrot_dispatch_size total_work =
      some (total_work / 65536 + 1, 1024, 1) := by
    simp only [mandelbrot_dispatch_size, MANDELBROT_DISPATCH_SIZE_Y,
      MANDELBROT_WORKGROUP_SIZE_Y]
    norm_num
    intro hcon
    omega
  rw [hresult]
  refine ⟨rfl, ?_⟩
  intro out hout
  rw [Option.mem_def, Option.some.injEq] at hout
  subst hout
  refine ⟨rfl, ?_, by omega, rfl, by norm_num⟩
  show total_work ≤ (total_work / 65536 + 1) * 1024 * MANDELBROT_WORKGROUP_SIZE_Y
  rw [MANDELBROT_WORKGROUP_SIZE_Y]
  omega

/-- C1 amended, witness at `total_work = 100000`. -/
theorem mandelbrot_dispatch_size_spec_witness :
    100000 < 65535 * 65536 ∧
    ((mandelbrot_dispatch_size 100000).isSome = true ∧
      ∀ out ∈ mandelbrot_dispatch_size 100000,
        out.2.2 = 1 ∧
        100000 ≤ out.1 * out.2.1 * MANDELBROT_WORKGROUP_SIZE_Y ∧
        out.1 ≤ 65535 ∧ out.2.1 = 1024 ∧ out.2.1 ≤ 65535) :=
  ⟨by norm_num, mandelbrot_dispatch_size_spec 100000 (by norm_num)⟩

/-! ### C4: empty incorporate is a no-op -/

/-- C4: `update_colours` with an empty newly-escaped list returns the
histogram state (histogram, bucket labels, total samples, cumulative-rank
table) and the colour-range array entirely unchanged. -/
theorem update_colours_empty_noop (hc : HistogramColouring) (s : ScreenSize)
    (all_pixels : List Pixel) (colour_ranges : List ColourRange) :
    update_colours hc s all_pixels [] colour_ranges = some (hc, colour_ranges) :=
  rfl

/-! ### C8: mouse-wheel handling -/

/-- C8: a `PixelDelta` mouse-wheel event panics with the exact message
`expected LineDelta, got PixelDelta`; a `LineDelta` event updates the zoom
to `zoom + zoom * 0.1 * delta`. -/
theorem mouse_wheel_delta_spec (zoom px py lx ly : ℚ) :
    handle_mouse_wheel zoom (MouseScrollDelta.pixelDelta px py) =
      Except.error "expected LineDelta, got PixelDelta" ∧
    handle_mouse_wheel zoom (MouseScrollDelta.lineDelta lx ly) =
      Except.ok (zoom + zoom * (1 / 10) * ly) :=
  ⟨rfl, rfl⟩

/-! ### C9: resize preserves the view state -/

/-- C9: the resize handler resets the pixel store, colour buffer and
histogram but leaves the zoom scalar and the origin offset unchanged. -/
theorem resized_preserves_view (st : AppState) (new_size : ScreenSize) :
    (handle_resized st new_size).zoom = st.zoom ∧
    (handle_resized st new_size).origin = st.origin ∧
    (handle_resized st new_size).histogram_colouring = HistogramColouring.new ∧
    (handle_resized st new_size).all_pixels = create_pixels new_size :=
  ⟨rfl, rfl, rfl, rfl⟩

/-! ### C7: view reset -/

/-- C7: after a view reset every pixel of the working set and of the
snapshot is unescaped with zero iteration count and zero current value, the
histogram state is empty, the colour buffer is all-default, and the
unescaped working set is the full `width * height` grid in row-major
order. -/
theorem view_reset_spec (st : AppState) :
    (∀ p ∈ (apply_view_reset st).unescaped_pixels,
      p.escaped = 0 ∧ p.iteration_count = 0 ∧ p.current_value = Complex.ZERO) ∧
    (∀ p ∈ (apply_view_reset st).all_pixels,
      p.escaped = 0 ∧ p.iteration_count = 0 ∧ p.current_value = Complex.ZERO) ∧
    (apply_view_reset st).histogram_colouring.total_samples = 0 ∧
    (apply_view_reset st).histogram_colouring.bucket_labels = [] ∧
    (∀ k, (apply_view_reset st).histogram_colouring.histogram k = 0) ∧
    (∀ k, (apply_view_reset st).histogram_colouring.histogram_ranges k = none) ∧
    (∀ c ∈ (apply_view_reset st).colour_ranges, c = ColourRange.defaultVal) ∧
    (apply_view_reset st).unescaped_pixels.length =
      st.screen_size.width * st.screen_size.height ∧
    (∀ x y, x < st.screen_size.width → y < st.screen_size.height →
      (apply_view_reset st).unescaped_pixels[y * st.screen_size.width + x]? =
        some { x := x, y := y, escaped := 0, current_value := Complex.ZERO,
               iteration_count := 0 }) := by
  refine ⟨create_pixels_mem _, create_pixels_mem _, rfl, rfl, fun k => rfl,
    fun k => rfl, ?_, create_pixels_length _, ?_⟩
  · intro c hc
    exact (List.eq_of_mem_replicate hc)
  · intro x y hx hy
    exact create_pixels_getElem st.screen_size x y hx hy

/-- Concrete application state used to witness the reset theorem. -/
def exampleAppState : AppState :=
  { screen_size := { width := 2, height := 2 }
    zoom := 1
    origin := { x := 0, y := 0 }
    colour_ranges := []
    histogram_colouring := HistogramColouring.new
    all_pixels := []
    unescaped_pixels := [] }

/-- C7, witness: on a concrete 2×2 state, the reset working set has the
expected length and the expected pixel at row-major index `1 * 2 + 1`. -/
theorem view_reset_spec_witness :
    (apply_view_reset exampleAppState).unescaped_pixels.length = 2 * 2 ∧
    (apply_view_reset exampleAppState).unescaped_pixels[1 * 2 + 1]? =
      some { x := 1, y := 1, escaped := 0, current_value := Complex.ZERO,
             iteration_count := 0 } :=
  ⟨(view_reset_spec exampleAppState).2.2.2.2.2.2.2.1,
    (view_reset_spec exampleAppState).2.2.2.2.2.2.2.2 1 1
      (by norm_num [exampleAppState]) (by norm_num [exampleAppState])⟩

/-! ### C5/C6: the compaction pass -/

theorem compactStep_spec (width : Nat) (ps : List Pixel) :
    ∀ ap ne un ap' ne' un',
      compactStep width ps ap ne un = some (ap', ne', un') →
      ne' = ne ++ ps.filter (fun p => p.escaped == 1) ∧
      un' = un ++ ps.filter (fun p => p.escaped != 1) ∧
      ap'.length = ap.length := by
  induction ps with
  | nil =>
    intro ap ne un ap' ne' un' h
    simp only [compactStep, Option.some.injEq, Prod.mk.injEq] at h
    obtain ⟨rfl, rfl, rfl⟩ := h
    simp
  | cons p rest ih =>
    intro ap ne un ap' ne' un' h
    rw [compactStep] at h
    by_cases hp : p.escaped = 1
    · rw [if_pos hp] at h
      cases hidx : ap[p.y * width + p.x]? with
      | none => rw [hidx] at h; exact absurd h (by simp)
      | some c =>
        rw [hidx] at h
        obtain ⟨h1, h2, h3⟩ := ih _ _ _ _ _ _ h
        refine ⟨?_, ?_, ?_⟩
        · rw [h1, List.filter_cons_of_pos (by simp [hp]), List.append_assoc]
          rfl
        · rw [h2, List.filter_cons_of_neg (by simp [hp])]
        · rw [h3, List.length_set]
    · rw [if_neg hp] at h
      obtain ⟨h1, h2, h3⟩ := ih _ _ _ _ _ _ h
      refine ⟨?_, ?_, h3⟩
      · rw [h1, List.filter_cons_of_neg (by simp [hp])]
      · rw [h2, List.filter_cons_of_pos (by simp [hp]), List.append_assoc]
        rfl

theorem compactStep_writes (width : Nat) (ps : List Pixel) :
    ∀ ap ne un ap' ne' un',
      compactStep width ps ap ne un = some (ap', ne', un') →
      (ne ++ ps.filter (fun p => p.escaped == 1)).Pairwise
        (fun a b => a.y * width + a.x ≠ b.y * width + b.x) →
      (∀ p ∈ ne, ap[p.y * width + p.x]? = some p) →
      ∀ p ∈ ne', ap'[p.y * width + p.x]? = some p := by
  induction ps with
  | nil =>
    intro ap ne un ap' ne' un' h _ hinv
    simp only [compactStep, Option.some.injEq, Prod.mk.injEq] at h
    obtain ⟨rfl, rfl, rfl⟩ := h
    exact hinv
  | cons p rest ih =>
    intro ap ne un ap' ne' un' h hnd hinv
    rw [compactStep] at h
    by_cases hp : p.escaped = 1
    · rw [if_pos hp] at h
      cases hidx : ap[p.y * width + p.x]? with
      | none => rw [hidx] at h; exact absurd h (by simp)
      | some c =>
        rw [hidx] at h
        rw [List.filter_cons_of_pos (by simp [hp])] at hnd
        have hbound : p.y * width + p.x < ap.length :=
          (List.getElem?_eq_some_iff.mp hidx).1
        refine ih _ _ _ _ _ _ h ?_ ?_
        · rw [List.append_cons] at hnd
          exact hnd
        · intro q hq
          rcases List.mem_append.mp hq with hq | hq
          · have hne : p.y * width + p.x ≠ q.y * width + q.x := by
              rw [List.pairwise_append] at hnd
              exact fun hcon =>
                (hnd.2.2 q hq p (List.mem_cons_self _ _)) hcon.symm
            rw [List.getElem?_set_ne hne]
            exact hinv q hq
          · have hqp : q = p := by simpa using hq
            subst hqp
            exact List.getElem?_set_self hbound
    · rw [if_neg hp] at h
      rw [List.filter_cons_of_neg (by simp [hp])] at hnd
      exact ih _ _ _ _ _ _ h hnd hinv

/-- C5: the compaction pass processes exactly the first `n` read-back
records and partitions them: the newly-escaped list is exactly the escaped
records (in readback order), the next working set is exactly the
`escaped == 0` records, each record lands in exactly one list, and every
escaped record is written into the snapshot at `y * width + x`. -/
theorem compaction_spec (width n : Nat) (staging ap : List Pixel)
    (hbin : ∀ p ∈ staging, p.escaped ≤ 1)
    (hdist : ((staging.take n).filter (fun p => p.escaped == 1)).Pairwise
      (fun a b => a.y * width + a.x ≠ b.y * width + b.x)) :
    ∀ out ∈ compaction width staging n ap,
      out.2.1 = (staging.take n).filter (fun p => p.escaped == 1) ∧
      out.2.2 = (staging.take n).filter (fun p => p.escaped == 0) ∧
      (staging.take n).length = out.2.1.length + out.2.2.length ∧
      out.1.length = ap.length ∧
      ∀ p ∈ out.2.1, out.1[p.y * width + p.x]? = some p := by
  intro out hout
  rw [Option.mem_def] at hout
  obtain ⟨ap', ne', un'⟩ := out
  obtain ⟨h1, h2, h3⟩ := compactStep_spec width (staging.take n) _ _ _ _ _ _ hout
  simp only [List.nil_append] at h1 h2
  have hfilter_eq : (staging.take n).filter (fun p => p.escaped != 1) =
      (staging.take n).filter (fun p => p.escaped == 0) := by
    apply List.filter_congr
    intro q hq
    have : q.escaped ≤ 1 := hbin q (List.mem_of_mem_take hq)
    interval_cases h : q.escaped <;> simp
  have hlen : (staging.take n).length = ne'.length + un'.length := by
    rw [h1, h2]
    have hperm := List.filter_append_perm (fun p => p.escaped == 1) (staging.take n)
    have := hperm.length_eq
    rw [List.length_append] at this
    simp only [bne] at *
    omega
  refine ⟨h1, h2 ▸ hfilter_eq, hlen, h3, ?_⟩
  intro p hp
  refine compactStep_writes width (staging.take n) _ _ _ _ _ _ hout ?_
    (by intro q hq; exact absurd hq (by simp)) p hp
  simpa using hdist

/-- Concrete staging readback used for the compaction witnesses: ten
records on a 10×1 screen, the ones at indices 2 and 5 escaped. -/
def stagingExample : List Pixel :=
  (List.range 10).map fun i =>
    { x := i, y := 0, escaped := if i = 2 ∨ i = 5 then 1 else 0,
      current_value := Complex.ZERO, iteration_count := i }

/-- C5, witness: the spec's compaction scenario (10 records, indices 2 and
5 escaped) satisfies the hypotheses, and the pass partitions it. -/
theorem compaction_spec_witness :
    (∀ p ∈ stagingExample, p.escaped ≤ 1) ∧
    (((stagingExample.take 10).filter (fun p => p.escaped == 1)).Pairwise
      (fun a b => a.y * 10 + a.x ≠ b.y * 10 + b.x)) ∧
    (compaction 10 stagingExample 10
      (create_pixels { width := 10, height := 1 })).isSome = true ∧
    ∀ out ∈ compaction 10 stagingExample 10
        (create_pixels { width := 10, height := 1 }),
      out.2.1 = (stagingExample.take 10).filter (fun p => p.escaped == 1) ∧
      out.2.2 = (stagingExample.take 10).filter (fun p => p.escaped == 0) ∧
      (stagingExample.take 10).length = out.2.1.length + out.2.2.length ∧
      out.1.length = (create_pixels { width := 10, height := 1 }).length ∧
      ∀ p ∈ out.2.1, out.1[p.y * 10 + p.x]? = some p :=
  ⟨by decide, by decide, by decide,
    compaction_spec 10 10 stagingExample
      (create_pixels { width := 10, height := 1 }) (by decide) (by decide)⟩

/-- C6: the working set produced by one frame's compaction pass has length
at most `n`, the length of the working set submitted to that frame's
compute stage. -/
theorem compaction_working_set_nonincreasing (width n : Nat)
    (staging ap : List Pixel) :
    ∀ out ∈ compaction width staging n ap, out.2.2.length ≤ n := by
  intro out hout
  rw [Option.mem_def] at hout
  obtain ⟨ap', ne', un'⟩ := out
  obtain ⟨_, h2, _⟩ := compactStep_spec width (staging.take n) _ _ _ _ _ _ hout
  simp only [List.nil_append] at h2
  calc un'.length = ((staging.take n).filter fun p => p.escaped != 1).length := by
        rw [h2]
    _ ≤ (staging.take n).length := List.length_filter_le _ _
    _ ≤ n := List.length_take_le n staging

/-- C6, witness: on the concrete ten-record readback the next working set
has at most ten members. -/
theorem compaction_working_set_nonincreasing_witness :
    (compaction 10 stagingExample 10
      (create_pixels { width := 10, height := 1 })).isSome = true ∧
    ∀ out ∈ compaction 10 stagingExample 10
        (create_pixels { width := 10, height := 1 }),
      out.2.2.length ≤ 10 :=
  ⟨by decide,
    compaction_working_set_nonincreasing 10 10 stagingExample
      (create_pixels { width := 10, height := 1 })⟩

/-! ### Histogram engine: well-formedness and the insertion loop -/

/-- Well-formedness of the histogram state: distinct bucket labels, the
labels are exactly the keys with a positive count, and `total_samples`
equals the sum of all bucket counts.  This holds for `new`/`reset` states
and is preserved by `update_colours` (it matches the `debug_assert`s of
the source). -/
def HistogramColouring.WF (hc : HistogramColouring) : Prop :=
  hc.bucket_labels.Nodup ∧
  (∀ k, hc.histogram k ≠ 0 ↔ k ∈ hc.bucket_labels) ∧
  hc.total_samples = (hc.bucket_labels.map hc.histogram).sum

theorem new_WF : HistogramColouring.new.WF :=
  ⟨List.nodup_nil, fun k => by simp [HistogramColouring.new],
    by simp [HistogramColouring.new]⟩

theorem map_bump_of_not_mem (f : Nat → Nat) (t : Nat) (ls : List Nat)
    (h : t ∉ ls) :
    ls.map (fun k => if k = t then f k + 1 else f k) = ls.map f := by
  refine List.map_congr_left fun k hk => if_neg fun hcon => ?_
  subst hcon
  exact h hk

theorem sum_map_bump_of_mem (f : Nat → Nat) (t : Nat) :
    ∀ ls : List Nat, ls.Nodup → t ∈ ls →
      (ls.map fun k => if k = t then f k + 1 else f k).sum = (ls.map f).sum + 1 := by
  intro ls
  induction ls with
  | nil => intro _ hmem; exact absurd hmem (List.not_mem_nil t)
  | cons a rest ih =>
    intro hnd hmem
    rcases List.mem_cons.mp hmem with heq | hmem
    · subst heq
      simp only [List.map_cons, List.sum_cons]
      rw [map_bump_of_not_mem f _ rest (List.nodup_cons.mp hnd).1]
      simp only [if_true]
      omega
    · have hne : a ≠ t := by
        intro hcon
        subst hcon
        exact (List.nodup_cons.mp hnd).1 hmem
      simp only [List.map_cons, List.sum_cons, if_neg hne]
      rw [ih (List.nodup_cons.mp hnd).2 hmem]
      omega

theorem insertEscaped_WF (s : ScreenSize) (ps : List Pixel) :
    ∀ hc cr out, insertEscaped s hc ps cr = some out → hc.WF → out.1.WF := by
  induction ps with
  | nil =>
    intro hc cr out h hWF
    simp only [insertEscaped, Option.some.injEq] at h
    rw [← h]
    exact hWF
  | cons p rest ih =>
    intro hc cr out h hWF
    rw [insertEscaped] at h
    cases hidx : cr[p.y * s.width + p.x]? with
    | none => rw [hidx] at h; exact absurd h (by simp)
    | some c =>
      rw [hidx] at h
      refine ih _ _ _ h ?_
      obtain ⟨hnd, hmem, hsum⟩ := hWF
      by_cases h0 : hc.histogram p.iteration_count = 0
      · have hnotmem : p.iteration_count ∉ hc.bucket_labels := fun hcon =>
          ((hmem p.iteration_count).mpr hcon) h0
      -- fresh bucket: label appended, count goes 0 → 1
        refine ⟨?_, ?_, ?_⟩
        · simp only [h0, if_pos]
          refine List.nodup_append.mpr ⟨hnd, List.nodup_singleton _, ?_⟩
          intro a ha hb
          rw [List.mem_singleton] at hb
          subst hb
          exact hnotmem ha
        · intro k
          by_cases hk : k = p.iteration_count
          · subst hk
            simp [h0]
          · simp only [h0, if_pos, if_neg hk, List.mem_append,
              List.mem_singleton, hk, or_false]
            exact hmem k
        · simp only [h0, if_pos, List.map_append, List.sum_append,
            List.map_cons, List.map_nil, List.sum_cons, List.sum_nil]
          rw [map_bump_of_not_mem _ _ _ hnotmem, hsum]
          omega
      · have hinmem : p.iteration_count ∈ hc.bucket_labels :=
          (hmem p.iteration_count).mp h0
        refine ⟨?_, ?_, ?_⟩
        · simp only [if_neg h0]
          exact hnd
        · intro k
          by_cases hk : k = p.iteration_count
          · subst hk
            simp [if_neg h0, hinmem]
          · simp [if_neg h0, if_neg hk]
            exact hmem k
        · simp only [if_neg h0]
          rw [sum_map_bump_of_mem _ _ _ hnd hinmem, hsum]

theorem insertEscaped_total (s : ScreenSize) (ps : List Pixel) :
    ∀ hc cr out, insertEscaped s hc ps cr = some out →
      out.1.total_samples = hc.total_samples + ps.length ∧
      out.1.histogram_ranges = hc.histogram_ranges ∧
      out.2.length = cr.length := by
  induction ps with
  | nil =>
    intro hc cr out h
    simp only [insertEscaped, Option.some.injEq] at h
    rw [← h]
    simp
  | cons p rest ih =>
    intro hc cr out h
    rw [insertEscaped] at h
    cases hidx : cr[p.y * s.width + p.x]? with
    | none => rw [hidx] at h; exact absurd h (by simp)
    | some c =>
      rw [hidx] at h
      obtain ⟨h1, h2, h3⟩ := ih _ _ _ h
      refine ⟨by rw [h1]; simp; omega, h2, by rw [h3, List.length_set]⟩

theorem insertEscaped_flags (s : ScreenSize) (ps : List Pixel) :
    ∀ hc cr out, insertEscaped s hc ps cr = some out →
      (∀ i : Nat, cr[i]?.map ColourRange.escaped = some 1 →
        out.2[i]?.map ColourRange.escaped = some 1) ∧
      (∀ p ∈ ps, out.2[p.y * s.width + p.x]?.map ColourRange.escaped = some 1) := by
  induction ps with
  | nil =>
    intro hc cr out h
    simp only [insertEscaped, Option.some.injEq] at h
    rw [← h]
    exact ⟨fun i hi => hi, fun p hp => absurd hp (List.not_mem_nil p)⟩
  | cons p rest ih =>
    intro hc cr out h
    rw [insertEscaped] at h
    cases hidx : cr[p.y * s.width + p.x]? with
    | none => rw [hidx] at h; exact absurd h (by simp)
    | some c =>
      rw [hidx] at h
      obtain ⟨ihpres, ihset⟩ := ih _ _ _ h
      have hbound : p.y * s.width + p.x < cr.length :=
        (List.getElem?_eq_some_iff.mp hidx).1
      have hstep : ∀ i : Nat, cr[i]?.map ColourRange.escaped = some 1 →
          (cr.set (p.y * s.width + p.x)
            { c with escaped := 1 })[i]?.map ColourRange.escaped = some 1 := by
        intro i hi
        by_cases hieq : p.y * s.width + p.x = i
        · subst hieq
          rw [List.getElem?_set_self hbound]
          rfl
        · rw [List.getElem?_set_ne hieq]
          exact hi
      refine ⟨fun i hi => ihpres i (hstep i hi), ?_⟩
      intro q hq
      rcases List.mem_cons.mp hq with rfl | hq
      · refine ihpres _ ?_
        rw [List.getElem?_set_self hbound]
        rfl
      · exact ihset q hq

theorem sortedHistogram_WF (hc : HistogramColouring) (h : hc.WF) :
    (sortedHistogram hc).WF := by
  obtain ⟨hnd, hmem, hsum⟩ := h
  have hperm : (List.insertionSort (· ≤ ·) hc.bucket_labels).Perm hc.bucket_labels :=
    List.perm_insertionSort _ _
  refine ⟨hperm.symm.nodup hnd, ?_, ?_⟩
  · intro k
    exact (hmem k).trans hperm.mem_iff.symm
  · show hc.total_samples = _
    rw [hsum]
    exact ((hperm.map hc.histogram).sum_eq).symm

theorem sortedHistogram_sorted (hc : HistogramColouring)
    (hnd : hc.bucket_labels.Nodup) :
    (sortedHistogram hc).bucket_labels.Sorted (· < ·) := by
  have hs : (List.insertionSort (· ≤ ·) hc.bucket_labels).Sorted (· ≤ ·) :=
    List.sorted_insertionSort _ _
  have hnd' : (List.insertionSort (· ≤ ·) hc.bucket_labels).Nodup :=
    ((List.perm_insertionSort _ _).symm).nodup hnd
  exact hs.lt_of_le hnd'

theorem computeRanges_not_mem (f : Nat → Nat) (t : ℚ) :
    ∀ (ls : List Nat) (acc : Nat) (r : Nat → Option ℚ) (l : Nat), l ∉ ls →
      computeRanges f t ls acc r l = r l := by
  intro ls
  induction ls with
  | nil => intro acc r l _; rfl
  | cons a rest ih =>
    intro acc r l hl
    rw [computeRanges]
    rw [ih _ _ l fun hcon => hl (List.mem_cons_of_mem a hcon)]
    rw [if_neg]
    intro hcon
    subst hcon
    exact hl (List.mem_cons_self l rest)

theorem computeRanges_mem (f : Nat → Nat) (t : ℚ) :
    ∀ ls : List Nat, ls.Sorted (· < ·) →
      ∀ (acc : Nat) (r : Nat → Option ℚ) (l : Nat), l ∈ ls →
        computeRanges f t ls acc r l =
          some (((acc + ((ls.filter fun k => decide (k < l)).map f).sum : Nat) : ℚ)
            / t) := by
  intro ls
  induction ls with
  | nil => intro _ acc r l hl; exact absurd hl (List.not_mem_nil l)
  | cons a rest ih =>
    intro hsorted acc r l hl
    rw [computeRanges]
    rcases List.mem_cons.mp hl with heq | hl
    · subst heq
      have hnot : l ∉ rest := by
        intro hcon
        exact absurd (List.rel_of_sorted_cons hsorted l hcon) (lt_irrefl l)
      rw [computeRanges_not_mem f t rest _ _ _ hnot, if_pos rfl]
      have hfilt : (l :: rest).filter (fun k => decide (k < l)) = [] := by
        rw [List.filter_cons_of_neg (by simp)]
        rw [List.filter_eq_nil_iff]
        intro b hb
        have : l < b := List.rel_of_sorted_cons hsorted b hb
        simp
        omega
      rw [hfilt]
      simp
    · have ha : a < l := List.rel_of_sorted_cons hsorted l hl
      rw [ih hsorted.of_cons (acc + f a) _ l hl]
      rw [List.filter_cons_of_pos (by simpa using ha)]
      simp only [List.map_cons, List.sum_cons]
      rw [← Nat.add_assoc]

theorem recolourPixels_shape (ranges : Nat → Option ℚ) (all_pixels : List Pixel) :
    ∀ (cr : List ColourRange) (i : Nat) (out : List ColourRange),
      recolourPixels ranges all_pixels i cr = some out →
      out.length = cr.length ∧
      ∀ j : Nat, out[j]?.map ColourRange.escaped =
        cr[j]?.map ColourRange.escaped := by
  intro cr
  induction cr with
  | nil =>
    intro i out h
    simp only [recolourPixels, Option.some.injEq] at h
    rw [← h]
    exact ⟨rfl, fun j => rfl⟩
  | cons c rest ih =>
    intro i out h
    rw [recolourPixels] at h
    cases hpix : all_pixels[i]? with
    | none => rw [hpix] at h; exact absurd h (by simp)
    | some pixel =>
      rw [hpix] at h
      have h2 : (match (if pixel.escaped = 1 then
            match ranges pixel.iteration_count with
            | none => none
            | some v => some { c with value := v }
          else some c) with
        | none => none
        | some c' =>
          match recolourPixels ranges all_pixels (i + 1) rest with
          | none => none
          | some rest' => some (c' :: rest')) = some out := h
      clear h
      have hstep : ∀ c' : ColourRange,
          (if pixel.escaped = 1 then
            match ranges pixel.iteration_count with
            | none => none
            | some v => some { c with value := v }
          else some c) = some c' →
          c'.escaped = c.escaped := by
        intro c' hc'
        by_cases hesc : pixel.escaped = 1
        · rw [if_pos hesc] at hc'
          cases hr : ranges pixel.iteration_count with
          | none => rw [hr] at hc'; exact absurd hc' (by simp)
          | some v =>
            rw [hr, Option.some.injEq] at hc'
            rw [← hc']
        · rw [if_neg hesc, Option.some.injEq] at hc'
          rw [← hc']
      cases hc' : (if pixel.escaped = 1 then
          match ranges pixel.iteration_count with
          | none => none
          | some v => some { c with value := v }
        else some c) with
      | none => rw [hc'] at h2; exact absurd h2 (by simp)
      | some c1 =>
        rw [hc'] at h2
        cases hrec : recolourPixels ranges all_pixels (i + 1) rest with
        | none => rw [hrec] at h2; exact absurd h2 (by simp)
        | some rest1 =>
          rw [hrec, Option.some.injEq] at h2
          rw [← h2]
          obtain ⟨ihlen, ihget⟩ := ih (i + 1) rest1 hrec
          refine ⟨by simp [ihlen], ?_⟩
          intro j
          cases j with
          | zero =>
            simp only [List.getElem?_cons_zero]
            simp [hstep c1 hc']
          | succ j =>
            simp only [List.getElem?_cons_succ]
            exact ihget j


/-! ### C3, C10, C2: update_colours invariants -/

/-- C3: after any `update_colours` call starting from a well-formed state,
the sum of the per-bucket counts equals `total_samples` and the bucket
labels are pairwise distinct. -/
theorem update_colours_histogram_invariant (hc : HistogramColouring)
    (s : ScreenSize) (all_pixels newly_escaped : List Pixel)
    (cr : List ColourRange) (hWF : hc.WF) :
    ∀ out ∈ update_colours hc s all_pixels newly_escaped cr,
      (out.1.bucket_labels.map out.1.histogram).sum = out.1.total_samples ∧
      out.1.bucket_labels.Nodup := by
  intro out hout
  rw [Option.mem_def, update_colours] at hout
  by_cases hne : newly_escaped.isEmpty
  · rw [if_pos hne, Option.some.injEq] at hout
    rw [← hout]
    exact ⟨hWF.2.2.symm, hWF.1⟩
  · rw [if_neg hne] at hout
    cases hins : insertEscaped s { hc with histogram_ranges := fun _ => none }
        newly_escaped cr with
    | none => rw [hins] at hout; exact absurd hout (by simp)
    | some res =>
      rw [hins] at hout
      obtain ⟨hc1, cr1⟩ := res
      have hout2 : (match recolourPixels
          (withRanges (sortedHistogram hc1)).histogram_ranges all_pixels 0 cr1 with
        | none => none
        | some cr2 => some (withRanges (sortedHistogram hc1), cr2)) = some out := hout
      clear hout
      have hWF0 : ({ hc with histogram_ranges := fun _ => none } :
          HistogramColouring).WF := ⟨hWF.1, hWF.2.1, hWF.2.2⟩
      have hWF1 : hc1.WF :=
        insertEscaped_WF s newly_escaped _ _ _ hins hWF0
      cases hrec : recolourPixels
          (withRanges (sortedHistogram hc1)).histogram_ranges all_pixels 0 cr1 with
      | none => rw [hrec] at hout2; exact absurd hout2 (by simp)
      | some cr2 =>
        rw [hrec, Option.some.injEq] at hout2
        rw [← hout2]
        have hWF2 : (sortedHistogram hc1).WF := sortedHistogram_WF _ hWF1
        exact ⟨hWF2.2.2.symm, hWF2.1⟩

/-- An escaped pixel used in the histogram witnesses. -/
def pixelA : Pixel :=
  { x := 0, y := 0, escaped := 1, current_value := Complex.ZERO,
    iteration_count := 3 }

/-- An unescaped pixel used in the histogram witnesses. -/
def pixelB : Pixel :=
  { x := 1, y := 0, escaped := 0, current_value := Complex.ZERO,
    iteration_count := 0 }

/-- A second escaped pixel (different bucket) for the histogram witnesses. -/
def pixelC : Pixel :=
  { x := 2, y := 0, escaped := 1, current_value := Complex.ZERO,
    iteration_count := 7 }

/-- 3×1 screen used in the histogram witnesses. -/
def screenExample : ScreenSize := { width := 3, height := 1 }

/-- Snapshot for the histogram witnesses. -/
def allPixelsExample : List Pixel := [pixelA, pixelB, pixelC]

/-- Colour buffer for the histogram witnesses. -/
def colourRangesExample : List ColourRange :=
  [ColourRange.defaultVal, ColourRange.defaultVal, ColourRange.defaultVal]

/-- C3, witness: a concrete two-pixel incorporation from the empty state. -/
theorem update_colours_histogram_invariant_witness :
    HistogramColouring.new.WF ∧
    (update_colours HistogramColouring.new screenExample allPixelsExample
      [pixelA, pixelC] colourRangesExample).isSome = true ∧
    ∀ out ∈ update_colours HistogramColouring.new screenExample
        allPixelsExample [pixelA, pixelC] colourRangesExample,
      (out.1.bucket_labels.map out.1.histogram).sum = out.1.total_samples ∧
      out.1.bucket_labels.Nodup :=
  ⟨new_WF, by decide,
    update_colours_histogram_invariant HistogramColouring.new screenExample
      allPixelsExample [pixelA, pixelC] colourRangesExample new_WF⟩

/-- C10: a non-empty `update_colours` call adds exactly the length of the
newly-escaped list to `total_samples`, and every newly-escaped pixel's slot
in the colour-range array ends with its escaped flag set to `1`. -/
theorem update_colours_samples_and_flags (hc : HistogramColouring)
    (s : ScreenSize) (all_pixels newly_escaped : List Pixel)
    (cr : List ColourRange) (hne : newly_escaped ≠ []) :
    ∀ out ∈ update_colours hc s all_pixels newly_escaped cr,
      out.1.total_samples = hc.total_samples + newly_escaped.length ∧
      ∀ p ∈ newly_escaped,
        out.2[p.y * s.width + p.x]?.map ColourRange.escaped = some 1 := by
  intro out hout
  rw [Option.mem_def, update_colours] at hout
  rw [if_neg (by simpa using hne)] at hout
  cases hins : insertEscaped s { hc with histogram_ranges := fun _ => none }
      newly_escaped cr with
  | none => rw [hins] at hout; exact absurd hout (by simp)
  | some res =>
    rw [hins] at hout
    obtain ⟨hc1, cr1⟩ := res
    have hout2 : (match recolourPixels
        (withRanges (sortedHistogram hc1)).histogram_ranges all_pixels 0 cr1 with
      | none => none
      | some cr2 => some (withRanges (sortedHistogram hc1), cr2)) = some out := hout
    clear hout
    cases hrec : recolourPixels
        (withRanges (sortedHistogram hc1)).histogram_ranges all_pixels 0 cr1 with
    | none => rw [hrec] at hout2; exact absurd hout2 (by simp)
    | some cr2 =>
      rw [hrec, Option.some.injEq] at hout2
      rw [← hout2]
      obtain ⟨htot, _, _⟩ := insertEscaped_total s newly_escaped _ _ _ hins
      refine ⟨htot, ?_⟩
      intro p hp
      have hflag := (insertEscaped_flags s newly_escaped _ _ _ hins).2 p hp
      have hshape := recolourPixels_shape
        (withRanges (sortedHistogram hc1)).histogram_ranges all_pixels cr1 0 cr2 hrec
      rw [hshape.2 (p.y * s.width + p.x)]
      exact hflag

/-- C10, witness: a concrete two-pixel incorporation from the empty state. -/
theorem update_colours_samples_and_flags_witness :
    ([pixelA, pixelC] ≠ ([] : List Pixel)) ∧
    (update_colours HistogramColouring.new screenExample allPixelsExample
      [pixelA, pixelC] colourRangesExample).isSome = true ∧
    ∀ out ∈ update_colours HistogramColouring.new screenExample
        allPixelsExample [pixelA, pixelC] colourRangesExample,
      out.1.total_samples = HistogramColouring.new.total_samples +
        ([pixelA, pixelC] : List Pixel).length ∧
      ∀ p ∈ ([pixelA, pixelC] : List Pixel),
        out.2[p.y * screenExample.width + p.x]?.map ColourRange.escaped = some 1 :=
  ⟨by decide, by decide,
    update_colours_samples_and_flags HistogramColouring.new screenExample
      allPixelsExample [pixelA, pixelC] colourRangesExample (by decide)⟩


/-- C2: after a non-empty `update_colours` call from a well-formed state,
every bucket's cumulative rank equals the count of samples in strictly
smaller buckets divided by `total_samples`, all ranks lie in `[0, 1)`, and
ranks are non-decreasing along increasing bucket keys. -/
theorem update_colours_rank_monotone (hc : HistogramColouring) (s : ScreenSize)
    (all_pixels newly_escaped : List Pixel) (cr : List ColourRange)
    (hWF : hc.WF) (hne : newly_escaped ≠ []) :
    ∀ out ∈ update_colours hc s all_pixels newly_escaped cr,
      (∀ l ∈ out.1.bucket_labels,
        out.1.histogram_ranges l =
          some ((((out.1.bucket_labels.filter fun k => decide (k < l)).map
            out.1.histogram).sum : ℚ) / (out.1.total_samples : ℚ))) ∧
      (∀ l ∈ out.1.bucket_labels, ∃ q, out.1.histogram_ranges l = some q ∧
        0 ≤ q ∧ q < 1) ∧
      (∀ l₁ ∈ out.1.bucket_labels, ∀ l₂ ∈ out.1.bucket_labels, l₁ ≤ l₂ →
        ∀ q₁ q₂ : ℚ, out.1.histogram_ranges l₁ = some q₁ →
          out.1.histogram_ranges l₂ = some q₂ → q₁ ≤ q₂) := by
  intro out hout
  rw [Option.mem_def, update_colours] at hout
  rw [if_neg (by simpa using hne)] at hout
  cases hins : insertEscaped s { hc with histogram_ranges := fun _ => none }
      newly_escaped cr with
  | none => rw [hins] at hout; exact absurd hout (by simp)
  | some res =>
    rw [hins] at hout
    obtain ⟨hc1, cr1⟩ := res
    have hout2 : (match recolourPixels
        (withRanges (sortedHistogram hc1)).histogram_ranges all_pixels 0 cr1 with
      | none => none
      | some cr2 => some (withRanges (sortedHistogram hc1), cr2)) = some out := hout
    clear hout
    cases hrec : recolourPixels
        (withRanges (sortedHistogram hc1)).histogram_ranges all_pixels 0 cr1 with
    | none => rw [hrec] at hout2; exact absurd hout2 (by simp)
    | some cr2 =>
      rw [hrec, Option.some.injEq] at hout2
      rw [← hout2]
      have hWF0 : ({ hc with histogram_ranges := fun _ => none } :
          HistogramColouring).WF := ⟨hWF.1, hWF.2.1, hWF.2.2⟩
      have hWF1 : hc1.WF :=
        insertEscaped_WF s newly_escaped _ _ _ hins hWF0
      have hWF2 : (sortedHistogram hc1).WF := sortedHistogram_WF _ hWF1
      have hsorted : (sortedHistogram hc1).bucket_labels.Sorted (· < ·) :=
        sortedHistogram_sorted _ hWF1.1
      have htotpos : 0 < (sortedHistogram hc1).total_samples := by
        have h1 : hc1.total_samples = hc.total_samples + newly_escaped.length :=
          (insertEscaped_total s newly_escaped _ _ _ hins).1
        have h2 : 0 < newly_escaped.length := List.length_pos.mpr hne
        show 0 < hc1.total_samples
        omega
      have htotposQ : (0 : ℚ) < ((sortedHistogram hc1).total_samples : ℚ) := by
        exact_mod_cast htotpos
      have hkey : ∀ l ∈ (sortedHistogram hc1).bucket_labels,
          (withRanges (sortedHistogram hc1)).histogram_ranges l =
            some (((((sortedHistogram hc1).bucket_labels.filter
                fun k => decide (k < l)).map (sortedHistogram hc1).histogram).sum : ℚ)
              / ((sortedHistogram hc1).total_samples : ℚ)) := by
        intro l hl
        have h := computeRanges_mem (sortedHistogram hc1).histogram
          ((sortedHistogram hc1).total_samples : ℚ)
          (sortedHistogram hc1).bucket_labels hsorted 0
          (sortedHistogram hc1).histogram_ranges l hl
        show computeRanges (sortedHistogram hc1).histogram
          ((sortedHistogram hc1).total_samples : ℚ)
          (sortedHistogram hc1).bucket_labels 0
          (sortedHistogram hc1).histogram_ranges l = _
        rw [h]
        norm_num
      have hcount : ∀ l ∈ (sortedHistogram hc1).bucket_labels,
          ((((sortedHistogram hc1).bucket_labels.filter
            fun k => decide (k < l)).map (sortedHistogram hc1).histogram).sum)
            < (sortedHistogram hc1).total_samples := by
        intro l hl
        have hsum : (sortedHistogram hc1).total_samples =
            ((sortedHistogram hc1).bucket_labels.map
              (sortedHistogram hc1).histogram).sum := hWF2.2.2
        have hperm := List.filter_append_perm (fun k => decide (k < l))
          (sortedHistogram hc1).bucket_labels
        have hsplit : ((((sortedHistogram hc1).bucket_labels.filter
              fun k => decide (k < l)).map (sortedHistogram hc1).histogram).sum)
            + ((((sortedHistogram hc1).bucket_labels.filter
              fun k => !(decide (k < l))).map (sortedHistogram hc1).histogram).sum)
            = (((sortedHistogram hc1).bucket_labels.map
              (sortedHistogram hc1).histogram).sum) := by
          have h := (hperm.map (sortedHistogram hc1).histogram).sum_eq
          rw [List.map_append, List.sum_append] at h
          exact h
        have hlnot : l ∈ (sortedHistogram hc1).bucket_labels.filter
            fun k => !(decide (k < l)) :=
          List.mem_filter.mpr ⟨hl, by simp⟩
        have hfl : (sortedHistogram hc1).histogram l ≤
            ((((sortedHistogram hc1).bucket_labels.filter
              fun k => !(decide (k < l))).map (sortedHistogram hc1).histogram).sum) :=
          List.le_sum_of_mem
            (List.mem_map_of_mem (sortedHistogram hc1).histogram hlnot)
        have hfl1 : 1 ≤ (sortedHistogram hc1).histogram l :=
          Nat.one_le_iff_ne_zero.mpr ((hWF2.2.1 l).mpr hl)
        omega
      refine ⟨hkey, ?_, ?_⟩
      · intro l hl
        refine ⟨_, hkey l hl, ?_, ?_⟩
        · positivity
        · rw [div_lt_one htotposQ]
          exact_mod_cast hcount l hl
      · intro l₁ hl₁ l₂ hl₂ hle q₁ q₂ hq₁ hq₂
        rw [hkey l₁ hl₁, Option.some.injEq] at hq₁
        rw [hkey l₂ hl₂, Option.some.injEq] at hq₂
        rw [← hq₁, ← hq₂]
        have hsub : ((((sortedHistogram hc1).bucket_labels.filter
              fun k => decide (k < l₁)).map (sortedHistogram hc1).histogram)).Sublist
            ((((sortedHistogram hc1).bucket_labels.filter
              fun k => decide (k < l₂)).map (sortedHistogram hc1).histogram)) :=
          (List.monotone_filter_right (sortedHistogram hc1).bucket_labels
            (fun a ha => by simp at ha ⊢; omega)).map _
        have hsum_le := List.Sublist.sum_le_sum hsub (fun a _ => Nat.zero_le a)
        have hcast : (((((sortedHistogram hc1).bucket_labels.filter
              fun k => decide (k < l₁)).map (sortedHistogram hc1).histogram).sum : Nat) : ℚ)
            ≤ ((((((sortedHistogram hc1).bucket_labels.filter
              fun k => decide (k < l₂)).map (sortedHistogram hc1).histogram).sum : Nat)) : ℚ) :=
          Nat.cast_le.mpr hsum_le
        gcongr

/-- C2, witness: a concrete two-bucket incorporation from the empty state. -/
theorem update_colours_rank_monotone_witness :
    HistogramColouring.new.WF ∧
    ([pixelA, pixelC] ≠ ([] : List Pixel)) ∧
    (update_colours HistogramColouring.new screenExample allPixelsExample
      [pixelA, pixelC] colourRangesExample).isSome = true ∧
    ∀ out ∈ update_colours HistogramColouring.new screenExample
        allPixelsExample [pixelA, pixelC] colourRangesExample,
      (∀ l ∈ out.1.bucket_labels,
        out.1.histogram_ranges l =
          some ((((out.1.bucket_labels.filter fun k => decide (k < l)).map
            out.1.histogram).sum : ℚ) / (out.1.total_samples : ℚ))) ∧
      (∀ l ∈ out.1.bucket_labels, ∃ q, out.1.histogram_ranges l = some q ∧
        0 ≤ q ∧ q < 1) ∧
      (∀ l₁ ∈ out.1.bucket_labels, ∀ l₂ ∈ out.1.bucket_labels, l₁ ≤ l₂ →
        ∀ q₁ q₂ : ℚ, out.1.histogram_ranges l₁ = some q₁ →
          out.1.histogram_ranges l₂ = some q₂ → q₁ ≤ q₂) :=
  ⟨new_WF, by decide, by decide,
    update_colours_rank_monotone HistogramColouring.new screenExample
      allPixelsExample [pixelA, pixelC] colourRangesExample new_WF (by decide)⟩

end WgpuMandelbrot
